import Mathlib

/-
  Verification of the envelope and protocol composition layer of
  monocypher-py against its specification.

  Byte strings are modelled as lists of natural numbers.  The primitive
  cryptographic operations (XChaCha20 stream, Poly1305 MAC, X25519,
  HChaCha20, Argon2i) live in an external C library and are treated as a
  trusted collaborator: they are modelled as an abstract bundle of
  functions together with the algebraic laws the library documents
  (stream involution, length preservation, Diffie-Hellman commutativity).
-/

/-- Error taxonomy of the composition layer: length and parameter
validation errors, wire-format errors, the missing-nonce error, the
generic authentication failure, wrong-kind constructor arguments, and
the runtime error raised by a decrypt-incapable SealedBox. -/
inductive PyError where
  | invalidLength (field : String)
  | invalidParameter
  | malformedMessage
  | missingNonce
  | authenticationFailed
  | typeMismatch (msg : String)
  | runtimeError (msg : String)
  deriving DecidableEq

instance {ε α : Type} [DecidableEq ε] [DecidableEq α] : DecidableEq (Except ε α) := fun x y =>
  match x, y with
  | .ok a, .ok b =>
    if h : a = b then .isTrue (by rw [h]) else .isFalse (by intro hh; cases hh; exact h rfl)
  | .error a, .error b =>
    if h : a = b then .isTrue (by rw [h]) else .isFalse (by intro hh; cases hh; exact h rfl)
  | .ok _, .error _ => .isFalse (by intro hh; cases hh)
  | .error _, .ok _ => .isFalse (by intro hh; cases hh)

/-- Abstract bundle of primitive operations supplied by the external
library.  The authenticated cipher is split exactly as in the library:
a length-preserving stream cipher and a MAC over (key, nonce, ad,
ciphertext); lock and unlock are assembled from these below.  Key
exchange is split into raw X25519 scalar multiplication and the
HChaCha20 hash step. -/
structure Primitives where
  stream : List Nat → List Nat → List Nat → List Nat
  macOf : List Nat → List Nat → List Nat → List Nat → List Nat
  x25519 : List Nat → List Nat → List Nat
  hchacha20 : List Nat → List Nat → List Nat
  x25519_public_key : List Nat → List Nat
  argon2i : Nat → Nat → Nat → List Nat → List Nat → List Nat

/-- Laws the primitive library documents and that the composition layer
relies on: the stream cipher is a length-preserving involution for a
fixed key and nonce, MACs are 16 bytes, public keys derived from
32-byte secrets are 32 bytes, HChaCha20 outputs 32 bytes, raw
Diffie-Hellman is commutative across a key pair, and Argon2i honours
its requested output size. -/
structure PrimLaws (P : Primitives) : Prop where
  stream_invol : ∀ k n m, P.stream k n (P.stream k n m) = m
  stream_len : ∀ k n m, (P.stream k n m).length = m.length
  mac_len : ∀ k n a c, (P.macOf k n a c).length = 16
  pk_len : ∀ sk, sk.length = 32 → (P.x25519_public_key sk).length = 32
  hchacha_len : ∀ k i, (P.hchacha20 k i).length = 32
  x25519_comm : ∀ a b, P.x25519 a (P.x25519_public_key b) = P.x25519 b (P.x25519_public_key a)
  argon2i_len : ∀ hs nb it pw salt, (P.argon2i hs nb it pw salt).length = hs

/-- Monocypher crypto_lock_aead: ciphertext is the stream cipher applied
to the plaintext, the MAC covers the associated data and ciphertext.
Returns (mac, ciphertext). -/
def crypto_lock (P : Primitives) (key nonce ad pt : List Nat) : List Nat × List Nat :=
  (P.macOf key nonce ad (P.stream key nonce pt), P.stream key nonce pt)

/-- Monocypher crypto_unlock_aead: recompute the MAC over the received
ciphertext and compare; only if it matches is the plaintext released. -/
def crypto_unlock (P : Primitives) (key nonce ad mac ct : List Nat) : Option (List Nat) :=
  if P.macOf key nonce ad ct = mac then some (P.stream key nonce ct) else none

/-- Monocypher crypto_key_exchange: X25519 scalar multiplication
followed by the HChaCha20 key-derivation step (with a zero block), so
the result is usable directly as a symmetric key. -/
def crypto_key_exchange (P : Primitives) (sk pk : List Nat) : List Nat :=
  P.hchacha20 (P.x25519 sk pk) (List.replicate 16 0)

/-- Monocypher crypto_key_exchange_public_key: derive the public half
of an X25519 key pair. -/
def crypto_key_exchange_public_key (P : Primitives) (sk : List Nat) : List Nat :=
  P.x25519_public_key sk

/-- Modelled from the spec: the helper ensure_bytes_with_length lives in
monocypher/utils, which is not part of the sources here; the spec says
wrong-length inputs fail with InvalidLength before anything else runs. -/
def ensure_bytes_with_length (name : String) (b : List Nat) (n : Nat) : Except PyError Unit :=
  if b.length = n then .ok () else .error (.invalidLength name)

/-- crypto_verify16 from utils/crypto_cmp.py: both arguments must be 16
bytes, then the constant-time comparator of the library decides
equality (the C function returns 0 exactly on equal inputs). -/
def crypto_verify16 (a b : List Nat) : Except PyError Bool :=
  match ensure_bytes_with_length "a" a 16 with
  | .error e => .error e
  | .ok _ =>
    match ensure_bytes_with_length "b" b 16 with
    | .error e => .error e
    | .ok _ => .ok (decide (a = b))

/-- crypto_verify32 from utils/crypto_cmp.py. -/
def crypto_verify32 (a b : List Nat) : Except PyError Bool :=
  match ensure_bytes_with_length "a" a 32 with
  | .error e => .error e
  | .ok _ =>
    match ensure_bytes_with_length "b" b 32 with
    | .error e => .error e
    | .ok _ => .ok (decide (a = b))

/-- crypto_verify64 from utils/crypto_cmp.py. -/
def crypto_verify64 (a b : List Nat) : Except PyError Bool :=
  match ensure_bytes_with_length "a" a 64 with
  | .error e => .error e
  | .ok _ =>
    match ensure_bytes_with_length "b" b 64 with
    | .error e => .error e
    | .ok _ => .ok (decide (a = b))

/-- X25519 public key value (public.py, class PublicKey). -/
structure PublicKey where
  pk : List Nat
  deriving DecidableEq

/-- X25519 private key value (public.py, class PrivateKey). -/
structure PrivateKey where
  sk : List Nat
  deriving DecidableEq

/-- PublicKey constructor: ensure_bytes_with_length checks for exactly
32 bytes before the value is stored. -/
def mkPublicKey (pk : List Nat) : Except PyError PublicKey :=
  match ensure_bytes_with_length "pk" pk 32 with
  | .error e => .error e
  | .ok _ => .ok ⟨pk⟩

/-- PrivateKey constructor: ensure_bytes_with_length checks for exactly
32 bytes before the value is stored. -/
def mkPrivateKey (sk : List Nat) : Except PyError PrivateKey :=
  match ensure_bytes_with_length "sk" sk 32 with
  | .error e => .error e
  | .ok _ => .ok ⟨sk⟩

/-- PrivateKey.public_key: wrap the derived public bytes in a PublicKey
(whose constructor re-checks the length). -/
def PrivateKey.publicKey (P : Primitives) (k : PrivateKey) : Except PyError PublicKey :=
  mkPublicKey (crypto_key_exchange_public_key P k.sk)

/-- Modelled from the spec: SecretBox (monocypher/secret.py is not among
the sources here).  One immutable 32-byte symmetric key. -/
structure SecretBox where
  key : List Nat
  deriving DecidableEq

/-- Modelled from the spec: SecretBox construction validates the
32-byte key length. -/
def mkSecretBox (key : List Nat) : Except PyError SecretBox :=
  match ensure_bytes_with_length "key" key 32 with
  | .error e => .error e
  | .ok _ => .ok ⟨key⟩

/-- Modelled from the spec: EncryptedMessage in full form, the logical
triple (nonce, mac, detached ciphertext) returned by SecretBox.encrypt;
serialization is pure concatenation. -/
structure EncryptedMessage where
  nonce : List Nat
  mac : List Nat
  ct : List Nat
  deriving DecidableEq

/-- EncryptedMessage.ciphertext accessor: the headless form, the MAC
followed by the detached ciphertext. -/
def EncryptedMessage.ciphertext (m : EncryptedMessage) : List Nat :=
  m.mac ++ m.ct

/-- EncryptedMessage full serialization: nonce, MAC, then payload. -/
def EncryptedMessage.toBytes (m : EncryptedMessage) : List Nat :=
  m.nonce ++ m.mac ++ m.ct

/-- Modelled from the spec: SecretBox.encrypt with an explicit nonce
(when the caller omits the nonce the implementation draws 24 random
bytes; randomness is injected here as the nonce argument).  The nonce
must have the required size; the primitive produces (mac, ciphertext)
from (key, nonce, associated data, plaintext). -/
def SecretBox.encrypt (P : Primitives) (box : SecretBox) (pt nonce ad : List Nat) :
    Except PyError EncryptedMessage :=
  match ensure_bytes_with_length "nonce" nonce 24 with
  | .error e => .error e
  | .ok _ =>
    let r := crypto_lock P box.key nonce ad pt
    .ok ⟨nonce, r.1, r.2⟩

/-- The first argument of SecretBox.decrypt: either a parsed
EncryptedMessage carrying its own nonce, or headless raw bytes. -/
inductive CiphertextArg where
  | message (m : EncryptedMessage)
  | raw (b : List Nat)
  deriving DecidableEq

/-- Modelled from the spec: SecretBox.decrypt.  An EncryptedMessage
supplies its own nonce; headless bytes require the explicit nonce
argument, otherwise MissingNonce; headless bytes shorter than the MAC
are MalformedMessage; the primitive releases plaintext only when the
MAC verifies, otherwise AuthenticationFailed. -/
def SecretBox.decrypt (P : Primitives) (box : SecretBox) (c : CiphertextArg)
    (nonce : Option (List Nat)) (ad : List Nat) : Except PyError (List Nat) :=
  match c with
  | .message m =>
    match crypto_unlock P box.key m.nonce ad m.mac m.ct with
    | some pt => .ok pt
    | none => .error .authenticationFailed
  | .raw b =>
    match nonce with
    | none => .error .missingNonce
    | some n =>
      if b.length < 16 then .error .malformedMessage
      else
        match crypto_unlock P box.key n ad (b.take 16) (b.drop 16) with
        | some pt => .ok pt
        | none => .error .authenticationFailed

/-- Possible argument kinds for constructors that inspect the runtime
class of their argument (Box and SealedBox): a private key, a public
key, or a value of any other class. -/
inductive KeyArg where
  | priv (k : PrivateKey)
  | pub (k : PublicKey)
  | other

/-- Box construction (public.py, Box): the first argument must be a
PrivateKey and the second a PublicKey, checked in that order, otherwise
a TypeError; the underlying SecretBox key is the shared key from the
key exchange. -/
def mkBox (P : Primitives) (your_sk their_pk : KeyArg) : Except PyError SecretBox :=
  match your_sk with
  | .priv sk =>
    match their_pk with
    | .pub pk => .ok ⟨crypto_key_exchange P sk.sk pk.pk⟩
    | _ => .error (.typeMismatch "their_pk should be a PublicKey instance")
  | _ => .error (.typeMismatch "your_sk should be a PrivateKey instance")

/-- Box.shared_key (public.py): returns the stored symmetric key. -/
def sharedKey (box : SecretBox) : List Nat :=
  box.key

/-- SealedBox value (public.py, SealedBox): always holds the recipient
public key; holds the private key exactly when constructed from one. -/
structure SealedBox where
  pk : PublicKey
  sk : Option PrivateKey

/-- SealedBox construction (public.py): a PrivateKey yields a box that
can also decrypt (deriving the public half), a PublicKey yields an
encrypt-only box, anything else is a TypeError. -/
def mkSealedBox (P : Primitives) (k : KeyArg) : Except PyError SealedBox :=
  match k with
  | .priv s =>
    match PrivateKey.publicKey P s with
    | .error e => .error e
    | .ok p => .ok ⟨p, some s⟩
  | .pub p => .ok ⟨p, none⟩
  | .other => .error (.typeMismatch "receipient_key should be a PublicKey or PrivateKey instance")

/-- SealedBox.encrypt (public.py): generate an ephemeral private key
(the fresh random bytes are injected as ephSkBytes), derive its public
half, encrypt with the Box of the ephemeral private key and the
recipient public key under the fixed all-zero 24-byte nonce, and
prepend the ephemeral public key to the headless ciphertext. -/
def SealedBox.encrypt (P : Primitives) (box : SealedBox) (msg ephSkBytes : List Nat) :
    Except PyError (List Nat) :=
  match mkPrivateKey ephSkBytes with
  | .error e => .error e
  | .ok ephSk =>
    match PrivateKey.publicKey P ephSk with
    | .error e => .error e
    | .ok ephPk =>
      match mkBox P (.priv ephSk) (.pub box.pk) with
      | .error e => .error e
      | .ok b =>
        match SecretBox.encrypt P b msg (List.replicate 24 0) [] with
        | .error e => .error e
        | .ok m => .ok (ephPk.pk ++ m.ciphertext)

/-- SealedBox.decrypt (public.py): requires the private key (otherwise
RuntimeError); slices off the leading 32 bytes as the ephemeral public
key (wrapping them in a PublicKey, whose constructor checks length 32),
builds the Box of the recipient private key and the ephemeral public
key, and decrypts the remainder headless under the all-zero nonce. -/
def SealedBox.decrypt (P : Primitives) (box : SealedBox) (ciphertext : List Nat) :
    Except PyError (List Nat) :=
  match box.sk with
  | none => .error (.runtimeError "SecretBox cannot decrypt using a PublicKey")
  | some sk =>
    match mkPublicKey (ciphertext.take 32) with
    | .error e => .error e
    | .ok epk =>
      match mkBox P (.priv sk) (.pub epk) with
      | .error e => .error e
      | .ok b =>
        SecretBox.decrypt P b (.raw (ciphertext.drop 32)) (some (List.replicate 24 0)) []

/-- Modelled from the spec: the self-describing encoded password hash
(monocypher/pwhash.py is not among the sources here).  The encoding
embeds the block count, the iteration count, the salt length, the salt
and the hash, and round-trips exactly through parsing. -/
def encodePwhash (nb it : Nat) (salt hash : List Nat) : List Nat :=
  nb :: it :: salt.length :: (salt ++ hash)

/-- Modelled from the spec: parse an encoded password hash back into
(nb_blocks, nb_iterations, salt, hash); fails on anything too short. -/
def parsePwhash (enc : List Nat) : Option (Nat × Nat × List Nat × List Nat) :=
  match enc with
  | nb :: it :: sl :: rest =>
    if sl ≤ rest.length then some (nb, it, rest.take sl, rest.drop sl) else none
  | _ => none

/-- Modelled from the spec: hashes are compared with the fixed-width
constant-time comparator, which exists for widths 16, 32 and 64 only. -/
def compareHash (a b : List Nat) : Except PyError Bool :=
  if a.length = 16 then crypto_verify16 a b
  else if a.length = 32 then crypto_verify32 a b
  else if a.length = 64 then crypto_verify64 a b
  else .error (.invalidLength "hash")

/-- Modelled from the spec: pwhash (when the salt is omitted the
implementation draws at least 8 random bytes; randomness is injected as
the salt argument).  Parameter bounds are checked before the KDF runs;
the result is the self-describing encoding of parameters, salt and
Argon2i output. -/
def pwhash (P : Primitives) (password salt : List Nat) (nb_blocks nb_iterations hash_size : Nat) :
    Except PyError (List Nat) :=
  if salt.length < 8 then .error .invalidParameter
  else if hash_size < 4 then .error .invalidParameter
  else if nb_blocks < 8 then .error .invalidParameter
  else if nb_iterations < 1 then .error .invalidParameter
  else .ok (encodePwhash nb_blocks nb_iterations salt
      (P.argon2i hash_size nb_blocks nb_iterations password salt))

/-- Modelled from the spec: verify parses the encoding, recomputes the
hash with the parsed parameters only, and compares with the
constant-time comparator. -/
def verify (P : Primitives) (password enc : List Nat) : Except PyError Bool :=
  match parsePwhash enc with
  | none => .error .malformedMessage
  | some (nb, it, salt, h) => compareHash h (P.argon2i h.length nb it password salt)

/-- Error kinds that SecretBox.decrypt can produce. -/
def secretBoxDecryptErrorKinds : List PyError :=
  [.missingNonce, .malformedMessage, .authenticationFailed]

/-- Flip bit j of the byte at position i of a byte string. -/
def flipBitAt (l : List Nat) (i j : Nat) : List Nat :=
  l.set i ((l.getD i 0) ^^^ (1 <<< j))

/-- Concrete instance of the primitive bundle, used to evaluate the
theorems below on explicit inputs.  The stream cipher XORs every byte
with a keystream byte derived from the key and nonce, the MAC mixes the
key bytes positionally with sums of the other inputs, raw
Diffie-Hellman multiplies digit sums modulo a prime, and the public-key
derivation is the identity on the secret scalar. -/
def toyPrims : Primitives where
  stream k n m := m.map (fun b => b ^^^ ((k.sum + n.sum) % 256))
  macOf k n a c := (List.range 16).map (fun i => (k.getD i 0 + n.sum + 3 * a.sum + 7 * c.sum + i) % 256)
  x25519 s p := [(s.sum * p.sum) % 251]
  hchacha20 k i := (List.range 32).map (fun j => (k.sum + i.sum + j) % 256)
  x25519_public_key s := s
  argon2i hs nb it pw salt := (List.range hs).map (fun i => (pw.sum + nb + it + salt.sum + i) % 256)

theorem toyLaws : PrimLaws toyPrims := by
  constructor
  · intro k n m
    show List.map _ (List.map _ m) = m
    rw [List.map_map]
    have h : ((fun b => b ^^^ (k.sum + n.sum) % 256) ∘ fun b => b ^^^ (k.sum + n.sum) % 256) = id := by
      funext b
      simp [Function.comp, Nat.xor_cancel_right]
    rw [h, List.map_id]
  · intro k n m
    simp [toyPrims]
  · intro k n a c
    simp [toyPrims]
  · intro sk h
    simp [toyPrims, h]
  · intro k i
    simp [toyPrims]
  · intro a b
    simp [toyPrims, Nat.mul_comm]
  · intro hs nb it pw salt
    simp [toyPrims]

theorem ensure_ok (name : String) (b : List Nat) (n : Nat) (h : b.length = n) :
    ensure_bytes_with_length name b n = .ok () := by
  simp [ensure_bytes_with_length, h]

theorem ensure_err (name : String) (b : List Nat) (n : Nat) (h : b.length ≠ n) :
    ensure_bytes_with_length name b n = .error (.invalidLength name) := by
  simp [ensure_bytes_with_length, h]

theorem crypto_verify16_eval (a b : List Nat) (ha : a.length = 16) (hb : b.length = 16) :
    crypto_verify16 a b = .ok (decide (a = b)) := by
  simp [crypto_verify16, ensure_bytes_with_length, ha, hb]

theorem crypto_verify32_eval (a b : List Nat) (ha : a.length = 32) (hb : b.length = 32) :
    crypto_verify32 a b = .ok (decide (a = b)) := by
  simp [crypto_verify32, ensure_bytes_with_length, ha, hb]

theorem crypto_verify64_eval (a b : List Nat) (ha : a.length = 64) (hb : b.length = 64) :
    crypto_verify64 a b = .ok (decide (a = b)) := by
  simp [crypto_verify64, ensure_bytes_with_length, ha, hb]

theorem crypto_verify16_err (a b : List Nat) (h : ¬(a.length = 16 ∧ b.length = 16)) :
    ∃ f, crypto_verify16 a b = .error (.invalidLength f) := by
  by_cases ha : a.length = 16
  · have hb : b.length ≠ 16 := fun hb => h ⟨ha, hb⟩
    exact ⟨"b", by simp [crypto_verify16, ensure_bytes_with_length, ha, hb]⟩
  · exact ⟨"a", by simp [crypto_verify16, ensure_bytes_with_length, ha]⟩

theorem crypto_verify32_err (a b : List Nat) (h : ¬(a.length = 32 ∧ b.length = 32)) :
    ∃ f, crypto_verify32 a b = .error (.invalidLength f) := by
  by_cases ha : a.length = 32
  · have hb : b.length ≠ 32 := fun hb => h ⟨ha, hb⟩
    exact ⟨"b", by simp [crypto_verify32, ensure_bytes_with_length, ha, hb]⟩
  · exact ⟨"a", by simp [crypto_verify32, ensure_bytes_with_length, ha]⟩

theorem crypto_verify64_err (a b : List Nat) (h : ¬(a.length = 64 ∧ b.length = 64)) :
    ∃ f, crypto_verify64 a b = .error (.invalidLength f) := by
  by_cases ha : a.length = 64
  · have hb : b.length ≠ 64 := fun hb => h ⟨ha, hb⟩
    exact ⟨"b", by simp [crypto_verify64, ensure_bytes_with_length, ha, hb]⟩
  · exact ⟨"a", by simp [crypto_verify64, ensure_bytes_with_length, ha]⟩

/-- C3: for byte strings of the expected fixed length (16, 32 or 64 for
the respective comparator) the comparator returns exactly the
byte-for-byte equality verdict (so any mismatch, a last-byte-only
mismatch included, yields false), and on any wrong-length input it
fails with InvalidLength instead of comparing a truncated prefix. -/
theorem claim_crypto_verify_exact (a b : List Nat) :
    (a.length = 16 → b.length = 16 → crypto_verify16 a b = .ok (decide (a = b))) ∧
    (¬(a.length = 16 ∧ b.length = 16) → ∃ f, crypto_verify16 a b = .error (.invalidLength f)) ∧
    (a.length = 32 → b.length = 32 → crypto_verify32 a b = .ok (decide (a = b))) ∧
    (¬(a.length = 32 ∧ b.length = 32) → ∃ f, crypto_verify32 a b = .error (.invalidLength f)) ∧
    (a.length = 64 → b.length = 64 → crypto_verify64 a b = .ok (decide (a = b))) ∧
    (¬(a.length = 64 ∧ b.length = 64) → ∃ f, crypto_verify64 a b = .error (.invalidLength f)) :=
  ⟨crypto_verify16_eval a b, crypto_verify16_err a b,
   crypto_verify32_eval a b, crypto_verify32_err a b,
   crypto_verify64_eval a b, crypto_verify64_err a b⟩

/-- Witness for C3: a last-byte-only mismatch of width 16 compares to
false, equal 32-byte inputs compare to true, and a 63-byte input to the
64-byte comparator is rejected with InvalidLength. -/
theorem claim_crypto_verify_exact_witness :
    crypto_verify16 (List.replicate 16 1) (List.replicate 15 1 ++ [2]) = .ok false ∧
    crypto_verify32 (List.replicate 32 1) (List.replicate 32 1) = .ok true ∧
    (∃ f, crypto_verify64 (List.replicate 63 1) (List.replicate 64 1) = .error (.invalidLength f)) := by
  refine ⟨?_, ?_, ?_⟩
  · have h := (claim_crypto_verify_exact (List.replicate 16 1) (List.replicate 15 1 ++ [2])).1
      (by decide) (by decide)
    rw [h]
    decide
  · have h := (claim_crypto_verify_exact (List.replicate 32 1) (List.replicate 32 1)).2.2.1
      (by decide) (by decide)
    rw [h]
    decide
  · exact (claim_crypto_verify_exact (List.replicate 63 1) (List.replicate 64 1)).2.2.2.2.2
      (by decide)

/-- C7: decrypting a headless ciphertext with no nonce supplied from
any source fails with MissingNonce and returns no plaintext. -/
theorem claim_decrypt_missing_nonce (P : Primitives) (box : SecretBox) (b ad : List Nat) :
    SecretBox.decrypt P box (.raw b) none ad = .error .missingNonce :=
  rfl

/-- C9: every successfully constructed key value stores exactly 32
bytes, and construction from bytes of any other length fails with
InvalidLength before the value exists. -/
theorem claim_key_length_invariant (b : List Nat) :
    (∀ k, mkPublicKey b = .ok k → k.pk.length = 32) ∧
    (∀ k, mkPrivateKey b = .ok k → k.sk.length = 32) ∧
    (b.length ≠ 32 →
      mkPublicKey b = .error (.invalidLength "pk") ∧
      mkPrivateKey b = .error (.invalidLength "sk")) := by
  refine ⟨?_, ?_, ?_⟩
  · intro k hk
    by_cases hb : b.length = 32
    · simp [mkPublicKey, ensure_bytes_with_length, hb] at hk
      rw [← hk]
      exact hb
    · simp [mkPublicKey, ensure_bytes_with_length, hb] at hk
  · intro k hk
    by_cases hb : b.length = 32
    · simp [mkPrivateKey, ensure_bytes_with_length, hb] at hk
      rw [← hk]
      exact hb
    · simp [mkPrivateKey, ensure_bytes_with_length, hb] at hk
  · intro hb
    exact ⟨by simp [mkPublicKey, ensure_bytes_with_length, hb],
           by simp [mkPrivateKey, ensure_bytes_with_length, hb]⟩

/-- Witness for C9: a 31-byte input is rejected and a 32-byte key
stores 32 bytes. -/
theorem claim_key_length_invariant_witness :
    mkPublicKey (List.replicate 31 0) = .error (.invalidLength "pk") ∧
    (⟨List.replicate 32 5⟩ : PrivateKey).sk.length = 32 := by
  refine ⟨?_, ?_⟩
  · exact ((claim_key_length_invariant (List.replicate 31 0)).2.2 (by decide)).1
  · exact (claim_key_length_invariant (List.replicate 32 5)).2.1 ⟨List.replicate 32 5⟩ (by rfl)

/-- C1: for every 32-byte key, 24-byte nonce, associated data and
plaintext, the SecretBox encryption of the plaintext decrypts back to
it, both when the full EncryptedMessage is handed to decrypt and when
its headless ciphertext is handed over with the nonce passed
explicitly. -/
theorem claim_secretbox_roundtrip (P : Primitives) (L : PrimLaws P) (key n ad pt : List Nat)
    (hk : key.length = 32) (hn : n.length = 24) :
    ∃ m : EncryptedMessage,
      SecretBox.encrypt P ⟨key⟩ pt n ad = .ok m ∧
      SecretBox.decrypt P ⟨key⟩ (.message m) none ad = .ok pt ∧
      SecretBox.decrypt P ⟨key⟩ (.raw m.ciphertext) (some n) ad = .ok pt := by
  refine ⟨⟨n, (crypto_lock P key n ad pt).1, (crypto_lock P key n ad pt).2⟩, ?_, ?_, ?_⟩
  · simp [SecretBox.encrypt, ensure_bytes_with_length, hn]
  · simp [SecretBox.decrypt, crypto_unlock, crypto_lock, L.stream_invol]
  · have hm : (P.macOf key n ad (P.stream key n pt)).length = 16 := L.mac_len _ _ _ _
    have ht : List.take 16 (P.macOf key n ad (P.stream key n pt) ++ P.stream key n pt)
        = P.macOf key n ad (P.stream key n pt) := List.take_left' hm
    have hd : List.drop 16 (P.macOf key n ad (P.stream key n pt) ++ P.stream key n pt)
        = P.stream key n pt := List.drop_left' hm
    have hlt : ¬ ((P.macOf key n ad (P.stream key n pt)).length
        + (P.stream key n pt).length < 16) := by
      rw [hm]
      omega
    simp [SecretBox.decrypt, EncryptedMessage.ciphertext, crypto_lock, crypto_unlock,
      ht, hd, hlt, L.stream_invol]

/-- Witness for C1: the round trip evaluated at a concrete key, nonce,
associated data and plaintext over the concrete primitive instance. -/
theorem claim_secretbox_roundtrip_witness :
    ∃ m : EncryptedMessage,
      SecretBox.encrypt toyPrims ⟨List.replicate 32 9⟩ [1, 2, 3] (List.replicate 24 7) [5] = .ok m ∧
      SecretBox.decrypt toyPrims ⟨List.replicate 32 9⟩ (.message m) none [5] = .ok [1, 2, 3] ∧
      SecretBox.decrypt toyPrims ⟨List.replicate 32 9⟩ (.raw m.ciphertext)
        (some (List.replicate 24 7)) [5] = .ok [1, 2, 3] :=
  claim_secretbox_roundtrip toyPrims toyLaws (List.replicate 32 9) (List.replicate 24 7)
    [5] [1, 2, 3] (by decide) (by decide)

/-- C5: a Box built from a PrivateKey and a PublicKey is a SecretBox
whose key (also returned by shared_key) is the derived shared secret,
the X25519 scalar multiplication followed by the HChaCha20 derivation
step; any argument of the wrong kind makes construction fail with the
TypeError-class error. -/
theorem claim_box_shared_key (P : Primitives) (your_sk their_pk : KeyArg) :
    (∀ sk pk, your_sk = .priv sk → their_pk = .pub pk →
      mkBox P your_sk their_pk = .ok ⟨crypto_key_exchange P sk.sk pk.pk⟩ ∧
      sharedKey ⟨crypto_key_exchange P sk.sk pk.pk⟩ = crypto_key_exchange P sk.sk pk.pk ∧
      crypto_key_exchange P sk.sk pk.pk
        = P.hchacha20 (P.x25519 sk.sk pk.pk) (List.replicate 16 0)) ∧
    ((∀ sk, your_sk ≠ .priv sk) → ∃ m, mkBox P your_sk their_pk = .error (.typeMismatch m)) ∧
    ((∀ pk, their_pk ≠ .pub pk) → ∃ m, mkBox P your_sk their_pk = .error (.typeMismatch m)) := by
  refine ⟨?_, ?_, ?_⟩
  · rintro sk pk rfl rfl
    exact ⟨rfl, rfl, rfl⟩
  · intro h
    cases your_sk with
    | priv s => exact absurd rfl (h s)
    | pub s => exact ⟨_, rfl⟩
    | other => exact ⟨_, rfl⟩
  · intro h
    cases your_sk with
    | priv s =>
      cases their_pk with
      | priv p => exact ⟨_, rfl⟩
      | pub p => exact absurd rfl (h p)
      | other => exact ⟨_, rfl⟩
    | pub s => exact ⟨_, rfl⟩
    | other => exact ⟨_, rfl⟩

/-- Witness for C5: concrete shared-key computation and a concrete
wrong-kind construction failure. -/
theorem claim_box_shared_key_witness :
    (mkBox toyPrims (.priv ⟨List.replicate 32 1⟩) (.pub ⟨List.replicate 32 2⟩)
      = .ok ⟨crypto_key_exchange toyPrims (List.replicate 32 1) (List.replicate 32 2)⟩ ∧
     sharedKey ⟨crypto_key_exchange toyPrims (List.replicate 32 1) (List.replicate 32 2)⟩
      = crypto_key_exchange toyPrims (List.replicate 32 1) (List.replicate 32 2) ∧
     crypto_key_exchange toyPrims (List.replicate 32 1) (List.replicate 32 2)
      = toyPrims.hchacha20 (toyPrims.x25519 (List.replicate 32 1) (List.replicate 32 2))
          (List.replicate 16 0)) ∧
    (∃ m, mkBox toyPrims .other (.pub ⟨List.replicate 32 2⟩) = .error (.typeMismatch m)) := by
  refine ⟨?_, ?_⟩
  · exact (claim_box_shared_key toyPrims (.priv ⟨List.replicate 32 1⟩)
      (.pub ⟨List.replicate 32 2⟩)).1 ⟨List.replicate 32 1⟩ ⟨List.replicate 32 2⟩ rfl rfl
  · exact (claim_box_shared_key toyPrims .other (.pub ⟨List.replicate 32 2⟩)).2.1
      (fun sk h => by cases h)

theorem sealedbox_encrypt_eval (P : Primitives) (L : PrimLaws P) (box : SealedBox)
    (msg ephSk : List Nat) (he : ephSk.length = 32) :
    SealedBox.encrypt P box msg ephSk
      = .ok (P.x25519_public_key ephSk
          ++ (P.macOf (crypto_key_exchange P ephSk box.pk.pk) (List.replicate 24 0) []
                (P.stream (crypto_key_exchange P ephSk box.pk.pk) (List.replicate 24 0) msg)
              ++ P.stream (crypto_key_exchange P ephSk box.pk.pk) (List.replicate 24 0) msg)) := by
  have hpk : (P.x25519_public_key ephSk).length = 32 := L.pk_len ephSk he
  simp [SealedBox.encrypt, mkPrivateKey, PrivateKey.publicKey, mkPublicKey,
    crypto_key_exchange_public_key, ensure_bytes_with_length, he, hpk, mkBox,
    SecretBox.encrypt, crypto_lock, EncryptedMessage.ciphertext]

theorem sealedbox_decrypt_append (P : Primitives) (boxPk : PublicKey) (sk : PrivateKey)
    (epk mac ct : List Nat) (hepk : epk.length = 32) (hmac : mac.length = 16) :
    SealedBox.decrypt P ⟨boxPk, some sk⟩ (epk ++ (mac ++ ct))
      = (match crypto_unlock P (crypto_key_exchange P sk.sk epk)
             (List.replicate 24 0) [] mac ct with
         | some pt => .ok pt
         | none => .error .authenticationFailed) := by
  have ht : List.take 32 (epk ++ (mac ++ ct)) = epk := List.take_left' hepk
  have hd : List.drop 32 (epk ++ (mac ++ ct)) = mac ++ ct := List.drop_left' hepk
  have ht2 : List.take 16 (mac ++ ct) = mac := List.take_left' hmac
  have hd2 : List.drop 16 (mac ++ ct) = ct := List.drop_left' hmac
  have hlt : ¬ ((mac ++ ct).length < 16) := by simp [hmac]
  have hlt2 : ¬ (mac.length + ct.length < 16) := by rw [hmac]; omega
  simp [SealedBox.decrypt, ht, hd, mkPublicKey, ensure_bytes_with_length, hepk, mkBox,
    SecretBox.decrypt, hlt, hlt2, ht2, hd2]

/-- C4: SealedBox.encrypt encrypts the message with the Box of the
(injected, per-call fresh) ephemeral private key and the recipient
public key under the fixed all-zero 24-byte nonce and returns exactly
the ephemeral public key (32 bytes), the MAC (16 bytes) and the
ciphertext (of the message length), so the output is the message length
plus 48. -/
theorem claim_sealedbox_encrypt_structure (P : Primitives) (L : PrimLaws P) (box : SealedBox)
    (msg ephSk : List Nat) (he : ephSk.length = 32) :
    ∃ b m, mkBox P (.priv ⟨ephSk⟩) (.pub box.pk) = .ok b ∧
      SecretBox.encrypt P b msg (List.replicate 24 0) [] = .ok m ∧
      SealedBox.encrypt P box msg ephSk
        = .ok (crypto_key_exchange_public_key P ephSk ++ (m.mac ++ m.ct)) ∧
      (crypto_key_exchange_public_key P ephSk).length = 32 ∧
      m.mac.length = 16 ∧
      m.ct.length = msg.length ∧
      (∀ out, SealedBox.encrypt P box msg ephSk = .ok out → out.length = msg.length + 48) := by
  refine ⟨⟨crypto_key_exchange P ephSk box.pk.pk⟩,
    ⟨List.replicate 24 0,
     P.macOf (crypto_key_exchange P ephSk box.pk.pk) (List.replicate 24 0)
       [] (P.stream (crypto_key_exchange P ephSk box.pk.pk) (List.replicate 24 0) msg),
     P.stream (crypto_key_exchange P ephSk box.pk.pk) (List.replicate 24 0) msg⟩,
    rfl, ?_, ?_, ?_, ?_, ?_, ?_⟩
  · simp [SecretBox.encrypt, ensure_bytes_with_length, crypto_lock]
  · exact sealedbox_encrypt_eval P L box msg ephSk he
  · exact L.pk_len ephSk he
  · exact L.mac_len _ _ _ _
  · exact L.stream_len _ _ _
  · intro out hout
    rw [sealedbox_encrypt_eval P L box msg ephSk he] at hout
    cases hout
    simp [L.pk_len ephSk he, L.mac_len, L.stream_len]
    omega

/-- Witness for C4: the output layout evaluated on a concrete message,
recipient key and ephemeral key over the concrete primitive bundle. -/
theorem claim_sealedbox_encrypt_structure_witness :
    ∃ b m, mkBox toyPrims (.priv ⟨List.replicate 32 2⟩) (.pub ⟨List.replicate 32 1⟩) = .ok b ∧
      SecretBox.encrypt toyPrims b [104, 105] (List.replicate 24 0) [] = .ok m ∧
      SealedBox.encrypt toyPrims ⟨⟨List.replicate 32 1⟩, none⟩ [104, 105] (List.replicate 32 2)
        = .ok (crypto_key_exchange_public_key toyPrims (List.replicate 32 2) ++ (m.mac ++ m.ct)) ∧
      (crypto_key_exchange_public_key toyPrims (List.replicate 32 2)).length = 32 ∧
      m.mac.length = 16 ∧
      m.ct.length = [104, 105].length ∧
      (∀ out, SealedBox.encrypt toyPrims ⟨⟨List.replicate 32 1⟩, none⟩ [104, 105]
          (List.replicate 32 2) = .ok out → out.length = [104, 105].length + 48) :=
  claim_sealedbox_encrypt_structure toyPrims toyLaws ⟨⟨List.replicate 32 1⟩, none⟩
    [104, 105] (List.replicate 32 2) (by decide)

/-- C2: sealing a message to a recipient public key and opening it with
the SealedBox built from the matching private key returns the message;
opening the same sealed envelope with a SealedBox built from a
different private key (one whose derived Box key authenticates the
ciphertext differently, the ideal-MAC reading of a key mismatch) fails
with AuthenticationFailed. -/
theorem claim_sealedbox_roundtrip (P : Primitives) (L : PrimLaws P)
    (recSk ephSk otherSk msg : List Nat)
    (hr : recSk.length = 32) (he : ephSk.length = 32) (ho : otherSk.length = 32)
    (hDiff : P.macOf (crypto_key_exchange P otherSk (P.x25519_public_key ephSk))
        (List.replicate 24 0) []
        (P.stream (crypto_key_exchange P ephSk (P.x25519_public_key recSk))
          (List.replicate 24 0) msg)
      ≠ P.macOf (crypto_key_exchange P ephSk (P.x25519_public_key recSk))
        (List.replicate 24 0) []
        (P.stream (crypto_key_exchange P ephSk (P.x25519_public_key recSk))
          (List.replicate 24 0) msg)) :
    ∃ encBox decBox otherBox sealed,
      mkSealedBox P (.pub ⟨crypto_key_exchange_public_key P recSk⟩) = .ok encBox ∧
      mkSealedBox P (.priv ⟨recSk⟩) = .ok decBox ∧
      mkSealedBox P (.priv ⟨otherSk⟩) = .ok otherBox ∧
      SealedBox.encrypt P encBox msg ephSk = .ok sealed ∧
      SealedBox.decrypt P decBox sealed = .ok msg ∧
      SealedBox.decrypt P otherBox sealed = .error .authenticationFailed := by
  have hpkE : (P.x25519_public_key ephSk).length = 32 := L.pk_len ephSk he
  have hpkR : (P.x25519_public_key recSk).length = 32 := L.pk_len recSk hr
  have hpkO : (P.x25519_public_key otherSk).length = 32 := L.pk_len otherSk ho
  refine ⟨⟨⟨crypto_key_exchange_public_key P recSk⟩, none⟩,
    ⟨⟨P.x25519_public_key recSk⟩, some ⟨recSk⟩⟩,
    ⟨⟨P.x25519_public_key otherSk⟩, some ⟨otherSk⟩⟩,
    _, rfl, ?_, ?_, sealedbox_encrypt_eval P L _ msg ephSk he, ?_, ?_⟩
  · simp [mkSealedBox, PrivateKey.publicKey, mkPublicKey, crypto_key_exchange_public_key,
      ensure_bytes_with_length, hpkR]
  · simp [mkSealedBox, PrivateKey.publicKey, mkPublicKey, crypto_key_exchange_public_key,
      ensure_bytes_with_length, hpkO]
  · rw [sealedbox_decrypt_append P _ _ _ _ _ hpkE (L.mac_len _ _ _ _)]
    have hcomm : crypto_key_exchange P recSk (P.x25519_public_key ephSk)
        = crypto_key_exchange P ephSk (P.x25519_public_key recSk) := by
      simp [crypto_key_exchange, L.x25519_comm]
    simp [crypto_unlock, crypto_key_exchange_public_key, hcomm, L.stream_invol]
  · rw [sealedbox_decrypt_append P _ _ _ _ _ hpkE (L.mac_len _ _ _ _)]
    simp only [crypto_unlock, crypto_key_exchange_public_key]
    rw [if_neg hDiff]

/-- Witness for C2: the sealed round trip and the wrong-key failure
evaluated at a concrete recipient key pair, ephemeral key, wrong key
and message over the concrete primitive bundle. -/
theorem claim_sealedbox_roundtrip_witness :
    ∃ encBox decBox otherBox sealed,
      mkSealedBox toyPrims (.pub ⟨crypto_key_exchange_public_key toyPrims (List.replicate 32 1)⟩)
        = .ok encBox ∧
      mkSealedBox toyPrims (.priv ⟨List.replicate 32 1⟩) = .ok decBox ∧
      mkSealedBox toyPrims (.priv ⟨List.replicate 32 3⟩) = .ok otherBox ∧
      SealedBox.encrypt toyPrims encBox [104, 105] (List.replicate 32 2) = .ok sealed ∧
      SealedBox.decrypt toyPrims decBox sealed = .ok [104, 105] ∧
      SealedBox.decrypt toyPrims otherBox sealed = .error .authenticationFailed :=
  claim_sealedbox_roundtrip toyPrims toyLaws (List.replicate 32 1) (List.replicate 32 2)
    (List.replicate 32 3) [104, 105] (by decide) (by decide) (by decide) (by decide)

/-- C10: flipping any bit inside the leading 32-byte ephemeral-public-
key prefix of a sealed envelope makes decryption with the recipient
private key derive a different Box key, so (under the ideal-MAC reading
that the different key authenticates the ciphertext differently) MAC
verification fails with AuthenticationFailed and no plaintext is
returned. -/
theorem claim_sealedbox_prefix_tamper (P : Primitives) (L : PrimLaws P)
    (recSk ephSk msg : List Nat) (i j : Nat)
    (hr : recSk.length = 32) (he : ephSk.length = 32) (hi : i < 32) (hj : j < 8)
    (hDiff : P.macOf
        (crypto_key_exchange P recSk (flipBitAt (P.x25519_public_key ephSk) i j))
        (List.replicate 24 0) []
        (P.stream (crypto_key_exchange P ephSk (P.x25519_public_key recSk))
          (List.replicate 24 0) msg)
      ≠ P.macOf (crypto_key_exchange P ephSk (P.x25519_public_key recSk))
        (List.replicate 24 0) []
        (P.stream (crypto_key_exchange P ephSk (P.x25519_public_key recSk))
          (List.replicate 24 0) msg)) :
    ∀ sealed, SealedBox.encrypt P ⟨⟨P.x25519_public_key recSk⟩, none⟩ msg ephSk = .ok sealed →
      SealedBox.decrypt P ⟨⟨P.x25519_public_key recSk⟩, some ⟨recSk⟩⟩ (flipBitAt sealed i j)
        = .error .authenticationFailed := by
  intro sealed hseal
  have hpkE : (P.x25519_public_key ephSk).length = 32 := L.pk_len ephSk he
  rw [sealedbox_encrypt_eval P L _ msg ephSk he] at hseal
  cases hseal
  have hflip : flipBitAt (P.x25519_public_key ephSk
      ++ (P.macOf (crypto_key_exchange P ephSk (P.x25519_public_key recSk))
            (List.replicate 24 0) []
            (P.stream (crypto_key_exchange P ephSk (P.x25519_public_key recSk))
              (List.replicate 24 0) msg)
          ++ P.stream (crypto_key_exchange P ephSk (P.x25519_public_key recSk))
              (List.replicate 24 0) msg)) i j
      = flipBitAt (P.x25519_public_key ephSk) i j
        ++ (P.macOf (crypto_key_exchange P ephSk (P.x25519_public_key recSk))
              (List.replicate 24 0) []
              (P.stream (crypto_key_exchange P ephSk (P.x25519_public_key recSk))
                (List.replicate 24 0) msg)
            ++ P.stream (crypto_key_exchange P ephSk (P.x25519_public_key recSk))
                (List.replicate 24 0) msg) := by
    have hilt : i < (P.x25519_public_key ephSk).length := by rw [hpkE]; exact hi
    rw [flipBitAt, flipBitAt, List.getD_append _ _ _ i hilt, List.set_append, if_pos hilt]
  dsimp only
  rw [hflip]
  have hlen : (flipBitAt (P.x25519_public_key ephSk) i j).length = 32 := by
    rw [flipBitAt, List.length_set]
    exact hpkE
  rw [sealedbox_decrypt_append P _ _ _ _ _ hlen (L.mac_len _ _ _ _)]
  simp only [crypto_unlock]
  rw [if_neg hDiff]

/-- Witness for C10: flipping bit 0 of byte 0 of a concrete sealed
envelope makes decryption with the recipient private key fail with
AuthenticationFailed. -/
theorem claim_sealedbox_prefix_tamper_witness :
    SealedBox.decrypt toyPrims
      ⟨⟨toyPrims.x25519_public_key (List.replicate 32 1)⟩, some ⟨List.replicate 32 1⟩⟩
      (flipBitAt (toyPrims.x25519_public_key (List.replicate 32 2)
        ++ (toyPrims.macOf
              (crypto_key_exchange toyPrims (List.replicate 32 2)
                (toyPrims.x25519_public_key (List.replicate 32 1)))
              (List.replicate 24 0) []
              (toyPrims.stream
                (crypto_key_exchange toyPrims (List.replicate 32 2)
                  (toyPrims.x25519_public_key (List.replicate 32 1)))
                (List.replicate 24 0) [104, 105])
            ++ toyPrims.stream
                (crypto_key_exchange toyPrims (List.replicate 32 2)
                  (toyPrims.x25519_public_key (List.replicate 32 1)))
                (List.replicate 24 0) [104, 105])) 0 0)
      = .error .authenticationFailed :=
  claim_sealedbox_prefix_tamper toyPrims toyLaws (List.replicate 32 1) (List.replicate 32 2)
    [104, 105] 0 0 (by decide) (by decide) (by decide) (by decide) (by decide) _
    (sealedbox_encrypt_eval toyPrims toyLaws
      ⟨⟨toyPrims.x25519_public_key (List.replicate 32 1)⟩, none⟩ [104, 105]
      (List.replicate 32 2) (by decide))

theorem secretbox_decrypt_error_kinds (P : Primitives) (box : SecretBox) (c : CiphertextArg)
    (nonce : Option (List Nat)) (ad : List Nat) (e : PyError)
    (h : SecretBox.decrypt P box c nonce ad = .error e) : e ∈ secretBoxDecryptErrorKinds := by
  rcases c with m | b
  · simp only [SecretBox.decrypt] at h
    rcases hu : crypto_unlock P box.key m.nonce ad m.mac m.ct with _ | pt <;> rw [hu] at h
    · cases h
      simp [secretBoxDecryptErrorKinds]
    · cases h
  · rcases nonce with _ | n
    · simp only [SecretBox.decrypt] at h
      cases h
      simp [secretBoxDecryptErrorKinds]
    · simp only [SecretBox.decrypt] at h
      by_cases hb : b.length < 16
      · rw [if_pos hb] at h
        cases h
        simp [secretBoxDecryptErrorKinds]
      · rw [if_neg hb] at h
        rcases hu : crypto_unlock P box.key n ad (b.take 16) (b.drop 16) with _ | pt <;>
          rw [hu] at h
        · cases h
          simp [secretBoxDecryptErrorKinds]
        · cases h

/-- C6 (amended): SealedBox.decrypt fails with a RuntimeError-class
error exactly when the box was built from a PublicKey only; when built
from a PrivateKey, SecretBox.decrypt can only fail with MissingNonce,
MalformedMessage or AuthenticationFailed, and SealedBox.decrypt shares
those failure modes for inputs of at least 32 bytes, while inputs
shorter than the 32-byte ephemeral-public-key prefix fail with the
InvalidLength error of the PublicKey constructor, which is not a
SecretBox.decrypt failure mode. -/
theorem claim_sealedbox_decrypt_failure_modes (P : Primitives) :
    (∀ pk : PublicKey, ∀ ct, ∃ m, SealedBox.decrypt P ⟨pk, none⟩ ct = .error (.runtimeError m)) ∧
    (∀ pk sk ct m, SealedBox.decrypt P ⟨pk, some sk⟩ ct ≠ .error (.runtimeError m)) ∧
    (∀ box c nonce ad e, SecretBox.decrypt P box c nonce ad = .error e →
      e ∈ secretBoxDecryptErrorKinds) ∧
    (∀ pk sk ct e, 32 ≤ List.length ct → SealedBox.decrypt P ⟨pk, some sk⟩ ct = .error e →
      e ∈ secretBoxDecryptErrorKinds) ∧
    (∀ pk sk ct, List.length ct < 32 →
      SealedBox.decrypt P ⟨pk, some sk⟩ ct = .error (.invalidLength "pk")) := by
  have htake : ∀ ct : List Nat, 32 ≤ ct.length → (ct.take 32).length = 32 := by
    intro ct h
    rw [List.length_take]
    omega
  refine ⟨fun pk ct => ⟨_, rfl⟩, ?_, fun box c nonce ad e h =>
    secretbox_decrypt_error_kinds P box c nonce ad e h, ?_, ?_⟩
  · intro pk sk ct m h
    simp only [SealedBox.decrypt] at h
    by_cases hl : 32 ≤ ct.length
    · rw [mkPublicKey, ensure_ok _ _ _ (htake ct hl)] at h
      simp only [mkBox] at h
      have := secretbox_decrypt_error_kinds P _ _ _ _ _ h
      simp [secretBoxDecryptErrorKinds] at this
    · have hne : (ct.take 32).length ≠ 32 := by
        rw [List.length_take]
        omega
      rw [mkPublicKey, ensure_err _ _ _ hne] at h
      cases h
  · intro pk sk ct e hl h
    simp only [SealedBox.decrypt] at h
    rw [mkPublicKey, ensure_ok _ _ _ (htake ct hl)] at h
    simp only [mkBox] at h
    exact secretbox_decrypt_error_kinds P _ _ _ _ _ h
  · intro pk sk ct hl
    have hne : (ct.take 32).length ≠ 32 := by
      rw [List.length_take]
      omega
    simp only [SealedBox.decrypt]
    rw [mkPublicKey, ensure_err _ _ _ hne]

/-- Witness for C6 (amended): a decrypt-capable box on a 3-byte input
fails with InvalidLength, and an encrypt-only box fails with the
RuntimeError-class error. -/
theorem claim_sealedbox_decrypt_failure_modes_witness :
    SealedBox.decrypt toyPrims ⟨⟨List.replicate 32 4⟩, some ⟨List.replicate 32 4⟩⟩ [1, 2, 3]
      = .error (.invalidLength "pk") ∧
    (∃ m, SealedBox.decrypt toyPrims ⟨⟨List.replicate 32 4⟩, none⟩ [1, 2, 3]
      = .error (.runtimeError m)) :=
  ⟨(claim_sealedbox_decrypt_failure_modes toyPrims).2.2.2.2 ⟨List.replicate 32 4⟩
      ⟨List.replicate 32 4⟩ [1, 2, 3] (by decide),
   (claim_sealedbox_decrypt_failure_modes toyPrims).1 ⟨List.replicate 32 4⟩ [1, 2, 3]⟩

/-- Counterexample for C6 as stated: a SealedBox built from a
PrivateKey, decrypting the empty byte string, fails with the
InvalidLength error of the PublicKey constructor, which is not among
the failure modes of SecretBox.decrypt. -/
theorem claim_sealedbox_decrypt_failure_modes_counterexample :
    SealedBox.decrypt toyPrims ⟨⟨List.replicate 32 0⟩, some ⟨List.replicate 32 0⟩⟩ []
      = .error (.invalidLength "pk") ∧
    (.invalidLength "pk" : PyError) ∉ secretBoxDecryptErrorKinds := by
  constructor
  · decide
  · decide

/-- C8 (amended): for every password, salt of length at least 8, block
count at least 8, iteration count at least 1 and hash size among 16, 32
and 64 (the widths the constant-time comparator supports), verify
accepts the password against its own pwhash encoding and rejects any
password whose Argon2i hash differs; verification recomputes the hash
from the parsed parameters only. -/
theorem claim_pwhash_verify_roundtrip (P : Primitives) (L : PrimLaws P)
    (password wrong salt : List Nat) (nb it hs : Nat)
    (hsalt : 8 ≤ salt.length) (hnb : 8 ≤ nb) (hit : 1 ≤ it)
    (hhs : hs = 16 ∨ hs = 32 ∨ hs = 64)
    (hne : P.argon2i hs nb it wrong salt ≠ P.argon2i hs nb it password salt) :
    ∃ enc, pwhash P password salt nb it hs = .ok enc ∧
      verify P password enc = .ok true ∧
      verify P wrong enc = .ok false := by
  have hhs4 : ¬ (hs < 4) := by rcases hhs with h | h | h <;> omega
  have hsl : ¬ (salt.length < 8) := by omega
  have hnbl : ¬ (nb < 8) := by omega
  have hitl : ¬ (it < 1) := by omega
  have hlenh : (P.argon2i hs nb it password salt).length = hs := L.argon2i_len _ _ _ _ _
  have hlenw : (P.argon2i hs nb it wrong salt).length = hs := L.argon2i_len _ _ _ _ _
  have hparse : parsePwhash (encodePwhash nb it salt (P.argon2i hs nb it password salt))
      = some (nb, it, salt, P.argon2i hs nb it password salt) := by
    simp [parsePwhash, encodePwhash, Nat.le_add_right, List.take_left, List.drop_left]
  refine ⟨encodePwhash nb it salt (P.argon2i hs nb it password salt), ?_, ?_, ?_⟩
  · simp [pwhash, hsl, hhs4, hnbl, hitl]
  · simp only [verify, hparse, hlenh]
    have hself : decide (P.argon2i hs nb it password salt
        = P.argon2i hs nb it password salt) = true := by simp
    rcases hhs with h | h | h <;> subst h
    · rw [compareHash, if_pos hlenh, crypto_verify16_eval _ _ hlenh hlenh, hself]
    · rw [compareHash, if_neg (by omega), if_pos hlenh,
        crypto_verify32_eval _ _ hlenh hlenh, hself]
    · rw [compareHash, if_neg (by omega), if_neg (by omega), if_pos hlenh,
        crypto_verify64_eval _ _ hlenh hlenh, hself]
  · simp only [verify, hparse, hlenh]
    have hdiff : decide (P.argon2i hs nb it password salt
        = P.argon2i hs nb it wrong salt) = false :=
      decide_eq_false (fun hh => hne hh.symm)
    rcases hhs with h | h | h <;> subst h
    · rw [compareHash, if_pos hlenh, crypto_verify16_eval _ _ hlenh hlenw, hdiff]
    · rw [compareHash, if_neg (by omega), if_pos hlenh,
        crypto_verify32_eval _ _ hlenh hlenw, hdiff]
    · rw [compareHash, if_neg (by omega), if_neg (by omega), if_pos hlenh,
        crypto_verify64_eval _ _ hlenh hlenw, hdiff]

/-- Witness for C8 (amended): a concrete password hashes and verifies
to true, and a differing password verifies to false, over the concrete
primitive bundle. -/
theorem claim_pwhash_verify_roundtrip_witness :
    ∃ enc, pwhash toyPrims [1] (List.replicate 8 0) 8 1 16 = .ok enc ∧
      verify toyPrims [1] enc = .ok true ∧
      verify toyPrims [2] enc = .ok false :=
  claim_pwhash_verify_roundtrip toyPrims toyLaws [1] [2] (List.replicate 8 0) 8 1 16
    (by decide) (by decide) (by decide) (Or.inl rfl) (by decide)

/-- Counterexample for C8 as stated: hash_size 4 is acceptable to
pwhash (the spec preconditions hold), yet verify on its own encoding
does not return True; it fails with InvalidLength because the
constant-time comparator exists only for widths 16, 32 and 64. -/
theorem claim_pwhash_verify_roundtrip_counterexample :
    pwhash toyPrims [1] (List.replicate 8 0) 8 1 4
      = .ok (8 :: 1 :: 8 :: (List.replicate 8 0 ++ [10, 11, 12, 13])) ∧
    verify toyPrims [1] (8 :: 1 :: 8 :: (List.replicate 8 0 ++ [10, 11, 12, 13]))
      = .error (.invalidLength "hash") := by
  constructor
  · decide
  · decide
